import Mathlib

/-!
Verification development for the cmakerer tool (src/cmakerer/__init__.py).

The tool walks a C/C++ tree, extracts `#include` lines from the collected
source files, resolves them against the collected directory sets, and renders
three sorted path lists.  Byte strings are modelled as `List Char`; Python
sets as `Finset`; fallible operations return `Except`/`Option`.
-/

namespace Cmakerer

/-- Python byte strings are modelled as lists of characters. -/
abbrev Bytes := List Char

/-- Convert a Lean string literal to our byte-string model. -/
def toB (s : String) : Bytes := s.data

/-- The six characters of Python's `string.whitespace`. -/
def wsChar (c : Char) : Bool :=
  c = ' ' || c = '\t' || c = '\n' || c = '\r' || c = '\x0b' || c = '\x0c'

/-- Embeds `line.translate(tab, delete=string.whitespace)`: remove every
whitespace character. -/
def stripAllWs (l : Bytes) : Bytes := l.filter (fun c => !wsChar c)

/-- Embeds Python `bytes.strip()`: drop leading and trailing whitespace. -/
def stripWs (l : Bytes) : Bytes :=
  ((l.dropWhile (fun c => wsChar c)).reverse.dropWhile (fun c => wsChar c)).reverse

/-- Embeds Python `haystack.find(sub)` (first occurrence), returning `none`
where Python returns `-1`; `isSome` embeds `sub in haystack`. -/
def findSub : Bytes → Bytes → Option Nat
  | [], sub => if sub = [] then some 0 else none
  | c :: rest, sub =>
    if sub.isPrefixOf (c :: rest) then some 0
    else (findSub rest sub).map (· + 1)

/-- Last index of a character in a byte string (Python `rfind` on one char). -/
def rfindChar (c : Char) : Bytes → Option Nat
  | [] => none
  | a :: as =>
    match rfindChar c as with
    | some i => some (i + 1)
    | none => if a = c then some 0 else none

/-- Embeds Python `s.split(sep)` for a one-character separator. -/
def splitOnChar (sep : Char) : Bytes → List Bytes
  | [] => [[]]
  | c :: rest =>
    let ps := splitOnChar sep rest
    if c = sep then [] :: ps
    else
      match ps with
      | [] => [[c]]
      | p :: tl => (c :: p) :: tl

/-- Embeds `b'/'.join(inc.split(b'/')[:-1])` from `search`: everything before
the final `/` of a path-shaped include target. -/
def dirPartOf (inc : Bytes) : Bytes :=
  List.intercalate ['/'] ((splitOnChar '/' inc).dropLast)

/-- Drop trailing copies of a character (used by the `dirname` embedding). -/
def stripTrailing (c : Char) (l : Bytes) : Bytes :=
  (l.reverse.dropWhile (fun a => a = c)).reverse

/-- Embeds `os.path.dirname` (posixpath): text before the last `/`, with
trailing slashes stripped unless the head is all slashes. -/
def pyDirname (p : Bytes) : Bytes :=
  match rfindChar '/' p with
  | none => []
  | some i =>
    let head := p.take (i + 1)
    if head.all (fun a => a = '/') then head else stripTrailing '/' head

/-- Embeds `is_excluded` (lines 123-129): a path is excluded when it equals an
exclude entry or strictly extends one across a `/` boundary. -/
def is_excluded (dirpath : Bytes) (excludelst : List Bytes) : Bool :=
  excludelst.any (fun ex => dirpath = ex || (ex ++ ['/']).isPrefixOf dirpath)

/-- The names bound at top level in module `cmakerer/__init__.py` (imports,
templates, functions, `__all__`): the global scope in which the body of
`is_excludedat` resolves names. -/
def pyModuleNames : List String :=
  ["argparse", "sys", "os", "string", "cmake_template",
   "compiler_defs_template", "parse_args", "is_excluded", "is_excludedat",
   "is_filtered", "has_ext", "get_bytes", "generate_excludelst",
   "generate_excludeatlst", "generate_filterlst", "generate_header_exts",
   "generate_code_exts", "search", "bytes_format", "generate_output",
   "main", "__all__"]

/-- Python runtime errors that the embedding distinguishes. -/
inductive PyErr
  | nameError (n : String)
  deriving DecidableEq

/-- Whether a name used inside the body of `is_excludedat` resolves: its local
scope binds `dirpath` and `excludeatlst`; otherwise the module globals (no
Python builtin is named `excludedatlst` either). -/
def nameResolvableInExcludedat (n : String) : Bool :=
  n ∈ ["dirpath", "excludeatlst"] || n ∈ pyModuleNames

/-- Embeds `is_excludedat` (lines 131-132): the body is
`return dirpath in excludedatlst`, but the only names in scope are the
parameters `dirpath`/`excludeatlst` and the module globals, none of which is
`excludedatlst`, so evaluating the body raises `NameError`.  The `ok` branch
is unreachable: it stands for the membership test the body would perform if
the name resolved. -/
def is_excludedat (dirpath : Bytes) (excludeatlst : List Bytes) :
    Except PyErr Bool :=
  if nameResolvableInExcludedat "excludedatlst" then
    .ok (dirpath ∈ excludeatlst)
  else
    .error (.nameError "excludedatlst")

/-- The exclude-at test actually performed by `search` (line 243):
`is_excluded(os.path.dirname(srcfile), excludeatlst)`. -/
def excludeAtSkip (excludeatlst : List Bytes) (srcfile : Bytes) : Bool :=
  is_excluded (pyDirname srcfile) excludeatlst

/-- Embeds `has_ext` (lines 142-148).  `exts` holds `some e` for extension `e`
and `none` for Python's `None` (the extensionless-header marker). -/
def has_ext (filename : Bytes) (exts : List (Option Bytes)) : Bool :=
  let parts := splitOnChar '.' filename
  if parts.length = 0 then false
  else if parts.length = 1 && decide (none ∈ exts) then true
  else decide (some (parts.getLastD []) ∈ exts)

/-- One file event of the directory walk: the `os.walk('.')` root string of
the containing directory (`"."` at the top, `"./sub"` below) and the bare
file name.  The walk is modelled on a posix host (`os.sep = '/'`, so the
`.replace('\x5c\x5c', '/')` calls are the identity). -/
structure WalkEntry where
  root : Bytes
  fname : Bytes
  deriving DecidableEq

/-- Embeds the per-file body of the walk loop in `search` (lines 237-255):
append the relative path of each file whose extension is configured, unless
its containing directory trips the exclude-at check, and record the
containing directory when the extension is a header extension. -/
def walkFileStep (excludeatlst : List Bytes) (code_exts header_exts : List (Option Bytes))
    (acc : List Bytes × Finset Bytes) (e : WalkEntry) : List Bytes × Finset Bytes :=
  if has_ext e.fname code_exts then
    let srcfile :=
      if e.root = toB "." then toB "./" ++ e.fname
      else e.root.drop 2 ++ '/' :: e.fname
    if is_excluded (pyDirname srcfile) excludeatlst then acc
    else
      let sf := if e.root = toB "." then e.fname else srcfile
      (acc.1 ++ [sf],
       if has_ext e.fname header_exts then
         (if e.root = toB "." then insert (toB ".") acc.2
          else insert (e.root.drop 2) acc.2)
       else acc.2)
  else acc

/-- The walk's file pass over a sequence of directory entries, producing
`srcfilelst` (in encounter order) and `includelst` (the header-directory
set) as `search` does before the extraction loop. -/
def walkCollect (excludeatlst : List Bytes) (code_exts header_exts : List (Option Bytes))
    (entries : List WalkEntry) : List Bytes × Finset Bytes :=
  entries.foldl (walkFileStep excludeatlst code_exts header_exts) ([], ∅)

/-- The kind of an include directive. -/
inductive IncKind
  | quoted
  | system
  deriving DecidableEq

/-- The byte string `b'include'` (`needle` in `search`). -/
def needle : Bytes := toB "include"

/-- The byte string `b'#include'` (`cneedle` in `search`). -/
def cneedle : Bytes := toB "#include"

/-- Embeds the per-line include extraction of `search` (lines 267-292):
quick-reject lines without `include`; require the whitespace-stripped line to
start with `#include`; strip the text after the first `include`; classify by
the first remaining character; cut at the closing delimiter. -/
def extractInclude (line : Bytes) : Option (IncKind × Bytes) :=
  match findSub line needle with
  | none => none
  | some i =>
    if cneedle.isPrefixOf (stripAllWs line) then
      match stripWs (line.drop (i + needle.length)) with
      | [] => none
      | c :: rest =>
        if c = '"' then
          match findSub rest ['"'] with
          | none => none
          | some pos => some (.quoted, rest.take pos)
        else if c = '<' then
          match findSub rest ['>'] with
          | none => none
          | some pos => some (.system, rest.take pos)
        else none
    else none

/-- The resolver state: the mutable sets `includelst` and `systemlst` of
`search`.  `includelst` is seeded by the walk with the header directories and
doubles as the quoted-root output; `systemlst` starts empty and is the
system-root output. -/
structure RState where
  includelst : Finset Bytes
  systemlst : Finset Bytes
  deriving DecidableEq

/-- Embeds the bare system-include search of `search` (lines 300-311): every
source file ending in `/ + inc` contributes its text before the FIRST
occurrence of `/ + inc` (Python `find`, lines 306-307). -/
def bareSystemRoots (srcs : List Bytes) (inc : Bytes) : Finset Bytes :=
  ((srcs.filter (fun s => ('/' :: inc).isSuffixOf s)).map
    (fun s => s.take ((findSub s ('/' :: inc)).getD 0))).toFinset

/-- Embeds the path-shaped matching loop of `search` (lines 324-328): every
entry of the universe ending in `/ + incpath` contributes the entry with
that suffix removed. -/
def pathRoots (u : Finset Bytes) (incpath : Bytes) : Finset Bytes :=
  (u.filter (fun p => ('/' :: incpath).isSuffixOf p = true)).image
    (fun p => p.take (p.length - (incpath.length + 1)))

/-- Embeds the resolution of one extracted include (lines 298-337).  A bare
quoted target is skipped; a bare system target is matched against
`srcfilelst`; a path-shaped target is matched against the CURRENT
`includelst` (quoted) or `systemlst` (system), and the computed roots are
added back into that same set. -/
def resolveInclude (srcs : List Bytes) (st : RState) (k : IncKind) (inc : Bytes) :
    RState :=
  if '/' ∈ inc then
    match k with
    | .quoted =>
      { st with includelst := st.includelst ∪ pathRoots st.includelst (dirPartOf inc) }
    | .system =>
      { st with systemlst := st.systemlst ∪ pathRoots st.systemlst (dirPartOf inc) }
  else
    match k with
    | .quoted => st
    | .system => { st with systemlst := st.systemlst ∪ bareSystemRoots srcs inc }

/-- Process the lines of one source file: extract and resolve each include. -/
def processLines (srcs : List Bytes) (st : RState) (lines : List Bytes) : RState :=
  lines.foldl
    (fun st line =>
      match extractInclude line with
      | none => st
      | some (k, inc) => resolveInclude srcs st k inc)
    st

/-- Process a sequence of already-read files in order. -/
def runFiles (srcs : List Bytes) (st : RState) (files : List (List Bytes)) : RState :=
  files.foldl (processLines srcs) st

/-- Embeds the extraction loop with its `try`/`except` (lines 262-340): each
file is opened and read; on a read failure the offending path is written to
standard error and the exception is re-raised, so the whole loop aborts with
that path and no later file is processed.  `none` as a file's content models
an unreadable file; the `error` value carries the path reported to stderr. -/
def scanFiles (srcs : List Bytes) (st : RState) :
    List (Bytes × Option (List Bytes)) → Except Bytes RState
  | [] => .ok st
  | (name, contents) :: rest =>
    match contents with
    | none => .error name
    | some lines => scanFiles srcs (processLines srcs st lines) rest

/-- Modelled from the spec (§4.4, for comparison with the code): the claim's
System lookup universe, "the set of directories containing at least one
source file". -/
def specSrcDirs (srcs : List Bytes) : Finset Bytes :=
  (srcs.map pyDirname).toFinset

/-- Embeds the quoting of one path in `generate_output` (lines 359-365):
wrap it in double quotes. -/
def quoteB (s : Bytes) : Bytes := '"' :: s ++ ['"']

/-- Byte-wise lexicographic comparison of byte strings: the order by which
Python compares `bytes` values, hence the order of `list.sort()` in
`generate_output`. -/
def bytesLe : Bytes → Bytes → Bool
  | [], _ => true
  | _ :: _, [] => false
  | a :: as, b :: bs => if a < b then true else if b < a then false else bytesLe as bs

/-- The propositional form of `bytesLe`. -/
def BytesLE (x y : Bytes) : Prop := bytesLe x y = true

instance : DecidableRel BytesLE := fun x y =>
  inferInstanceAs (Decidable (bytesLe x y = true))

/-- Embeds the rendering of one list in `generate_output` (lines 359-367):
quote every entry, then sort the quoted byte strings (`list.sort()` produces
the unique sorted permutation under the total antisymmetric byte order, so
insertion sort is an exact embedding). -/
def renderSorted (l : List Bytes) : List Bytes :=
  List.insertionSort BytesLE (l.map quoteB)

instance {ε α : Type} [DecidableEq ε] [DecidableEq α] : DecidableEq (Except ε α)
  | .ok x, .ok y =>
    if h : x = y then isTrue (congrArg Except.ok h)
    else isFalse (fun hc => h (Except.ok.inj hc))
  | .error e, .error f =>
    if h : e = f then isTrue (congrArg Except.error h)
    else isFalse (fun hc => h (Except.error.inj hc))
  | .ok _, .error _ => isFalse (fun hc => Except.noConfusion hc)
  | .error _, .ok _ => isFalse (fun hc => Except.noConfusion hc)

theorem bytesLe_cons_iff (a b : Char) (as bs : Bytes) :
    bytesLe (a :: as) (b :: bs) = true ↔ a < b ∨ (a = b ∧ bytesLe as bs = true) := by
  show (if a < b then true else if b < a then false else bytesLe as bs) = true ↔ _
  split_ifs with h1 h2
  · simp [h1]
  · simp [h1, ne_of_gt h2]
  · have hab : a = b := le_antisymm (not_lt.mp h2) (not_lt.mp h1)
    simp [h1, hab]

theorem bytesLe_total : ∀ x y : Bytes, bytesLe x y = true ∨ bytesLe y x = true
  | [], _ => Or.inl rfl
  | _ :: _, [] => Or.inr rfl
  | a :: as, b :: bs => by
    rcases lt_trichotomy a b with h | h | h
    · exact Or.inl ((bytesLe_cons_iff a b as bs).mpr (Or.inl h))
    · subst h
      rcases bytesLe_total as bs with hr | hr
      · exact Or.inl ((bytesLe_cons_iff _ _ _ _).mpr (Or.inr ⟨rfl, hr⟩))
      · exact Or.inr ((bytesLe_cons_iff _ _ _ _).mpr (Or.inr ⟨rfl, hr⟩))
    · exact Or.inr ((bytesLe_cons_iff b a bs as).mpr (Or.inl h))

theorem bytesLe_trans :
    ∀ x y z : Bytes, bytesLe x y = true → bytesLe y z = true → bytesLe x z = true
  | [], _, _, _, _ => rfl
  | _ :: _, [], _, h, _ => by simp [bytesLe] at h
  | _ :: _, _ :: _, [], _, h => by simp [bytesLe] at h
  | a :: as, b :: bs, c :: cs, h1, h2 => by
    rcases (bytesLe_cons_iff a b as bs).mp h1 with hab | ⟨hab, h1'⟩ <;>
      rcases (bytesLe_cons_iff b c bs cs).mp h2 with hbc | ⟨hbc, h2'⟩
    · exact (bytesLe_cons_iff a c as cs).mpr (Or.inl (lt_trans hab hbc))
    · exact (bytesLe_cons_iff a c as cs).mpr (Or.inl (hbc ▸ hab))
    · exact (bytesLe_cons_iff a c as cs).mpr (Or.inl (hab ▸ hbc))
    · exact (bytesLe_cons_iff a c as cs).mpr
        (Or.inr ⟨hab.trans hbc, bytesLe_trans as bs cs h1' h2'⟩)

theorem bytesLe_antisymm :
    ∀ x y : Bytes, bytesLe x y = true → bytesLe y x = true → x = y
  | [], [], _, _ => rfl
  | [], _ :: _, _, h => by simp [bytesLe] at h
  | _ :: _, [], h, _ => by simp [bytesLe] at h
  | a :: as, b :: bs, h1, h2 => by
    rcases (bytesLe_cons_iff a b as bs).mp h1 with hab | ⟨hab, h1'⟩ <;>
      rcases (bytesLe_cons_iff b a bs as).mp h2 with hba | ⟨hba, h2'⟩
    · exact absurd (lt_trans hab hba) (lt_irrefl a)
    · exact absurd hab (hba ▸ lt_irrefl b)
    · exact absurd hba (hab ▸ lt_irrefl b)
    · rw [hab, bytesLe_antisymm as bs h1' h2']

instance : IsTotal Bytes BytesLE := ⟨bytesLe_total⟩

instance : IsTrans Bytes BytesLE := ⟨bytesLe_trans⟩

instance : IsAntisymm Bytes BytesLE := ⟨bytesLe_antisymm⟩

theorem renderSorted_sorted (l : List Bytes) : List.Sorted BytesLE (renderSorted l) :=
  List.sorted_insertionSort BytesLE (l.map quoteB)

theorem renderSorted_perm_eq {l1 l2 : List Bytes} (h : l1.Perm l2) :
    renderSorted l1 = renderSorted l2 :=
  List.eq_of_perm_of_sorted
    ((List.perm_insertionSort _ _).trans ((h.map quoteB).trans
      (List.perm_insertionSort _ _).symm))
    (renderSorted_sorted l1) (renderSorted_sorted l2)

/-- The source-file contribution of one walk entry (the value `walkFileStep`
appends, when it appends one). -/
def walkPick (excludeatlst : List Bytes) (code_exts : List (Option Bytes))
    (e : WalkEntry) : Option Bytes :=
  if has_ext e.fname code_exts then
    let srcfile :=
      if e.root = toB "." then toB "./" ++ e.fname
      else e.root.drop 2 ++ '/' :: e.fname
    if is_excluded (pyDirname srcfile) excludeatlst then none
    else some (if e.root = toB "." then e.fname else srcfile)
  else none

/-- The header-directory contribution of one walk entry. -/
def walkPickHdr (excludeatlst : List Bytes) (code_exts header_exts : List (Option Bytes))
    (e : WalkEntry) : Option Bytes :=
  if has_ext e.fname code_exts then
    let srcfile :=
      if e.root = toB "." then toB "./" ++ e.fname
      else e.root.drop 2 ++ '/' :: e.fname
    if is_excluded (pyDirname srcfile) excludeatlst then none
    else if has_ext e.fname header_exts then
      some (if e.root = toB "." then toB "." else e.root.drop 2)
    else none
  else none

theorem walkFileStep_eq (x : List Bytes) (ce he : List (Option Bytes))
    (acc : List Bytes × Finset Bytes) (e : WalkEntry) :
    walkFileStep x ce he acc e =
      (acc.1 ++ (walkPick x ce e).toList,
       acc.2 ∪ (walkPickHdr x ce he e).toList.toFinset) := by
  unfold walkFileStep walkPick walkPickHdr
  dsimp only
  split_ifs <;> simp [Prod.ext_iff, Finset.ext_iff, or_comm]

theorem foldl_walkFileStep (x : List Bytes) (ce he : List (Option Bytes)) :
    ∀ (entries : List WalkEntry) (acc : List Bytes × Finset Bytes),
      entries.foldl (walkFileStep x ce he) acc =
        (acc.1 ++ entries.filterMap (walkPick x ce),
         acc.2 ∪ (entries.filterMap (walkPickHdr x ce he)).toFinset)
  | [], acc => by simp
  | e :: es, acc => by
    rw [List.foldl_cons, foldl_walkFileStep x ce he es _, walkFileStep_eq]
    rcases hp : walkPick x ce e with _ | sf <;>
      rcases hh : walkPickHdr x ce he e with _ | d <;>
        simp [List.filterMap_cons, hp, hh, Prod.ext_iff, Finset.ext_iff] <;> tauto

/-- A source line holding a quoted include of `b/h1.h`. -/
def lineIncB : Bytes := toB "#include \"b/h1.h\""

/-- A source line holding a quoted include of `a/h2.h`. -/
def lineIncA : Bytes := toB "#include \"a/h2.h\""

/-- A resolver state as left by a walk that found one header directory
`x/a/b` (for instance from a file `x/a/b/hdr.h`). -/
def stHdr : RState := ⟨{toB "x/a/b"}, ∅⟩

/-- Claim C10: for every pair of arguments, evaluating the body of `is_excludedat`
raises a `NameError`: the body reads the name `excludedatlst`, which is
neither of its two parameters nor any name bound at the top level of the
module.  The exclude-at check `search` actually performs on a file is
`is_excluded(os.path.dirname(srcfile), excludeatlst)`, i.e. the prefix-match
predicate, so `is_excludedat` is never exercised by the program. -/
theorem is_excludedat_always_name_error (d sf : Bytes) (l : List Bytes) :
    is_excludedat d l = .error (.nameError "excludedatlst") ∧
    excludeAtSkip l sf = is_excluded (pyDirname sf) l := by
  constructor
  · rfl
  · rfl

/-- Claim C3 (code bug): with exclude-at entry `foo`, the file `foo/sub/x.c` is
skipped by the code even though it is NOT a direct child of `foo` (its
containing directory is `foo/sub`), because `search` routes the exclude-at
test through `is_excluded`, whose prefix match also catches files in proper
subdirectories; the claim (and the flag's help text) say such files are
still recorded. -/
theorem exclude_at_skips_subdirectory_file :
    excludeAtSkip [toB "foo"] (toB "foo/sub/x.c") = true ∧
    pyDirname (toB "foo/sub/x.c") ≠ toB "foo" := by decide

/-- Claim C4 (code bug): resolving the bare system include `<a.h>` against the
source file `x/a.h/y/a.h` adds the root `x`, because the code slices at the
FIRST occurrence of `/a.h` (`find`) after only checking `endswith`; yet no
known source file equals `x` + `/` + `a.h`, contradicting the claimed
suffix identity (the sibling path-shaped branch removes the true suffix). -/
theorem bare_system_root_not_suffix_identity :
    (resolveInclude [toB "x/a.h/y/a.h"] ⟨∅, ∅⟩ .system (toB "a.h")).systemlst
      = {toB "x"} ∧
    toB "x" ++ '/' :: toB "a.h" = toB "x/a.h" ∧
    toB "x/a.h" ∉ [toB "x/a.h/y/a.h"] := by decide

/-- Claim C7 (code bug): when the first file of the extraction loop is unreadable,
the loop writes the offending path to standard error and then RE-RAISES the
exception, so the whole scan aborts with that path and the second (readable)
file is never processed — had the run continued, that file's include would
have added the root `x/a` (second conjunct).  The claim says the file is
skipped and the run continues. -/
theorem read_error_aborts_scan :
    scanFiles [] stHdr [(toB "bad.c", none), (toB "ok.c", some [lineIncB])]
      = .error (toB "bad.c") ∧
    scanFiles [] stHdr [(toB "ok.c", some [lineIncB])]
      = .ok ⟨{toB "x/a/b", toB "x/a"}, ∅⟩ := by decide

/-- Claim C1 (counterexample): two runs over the same two source files in the two
possible filesystem orders — each file holding one quoted include, starting
from the same walk result `stHdr` — end with DIFFERENT `QuotedRoots` sets:
resolving `"b/h1.h"` first adds `x/a`, which then lets `"a/h2.h"` add `x`;
in the opposite order `"a/h2.h"` finds no match.  The resolver searches the
very set it extends, so the final sets are not reorder-invariant. -/
theorem quoted_roots_depend_on_file_order :
    ([[lineIncB], [lineIncA]] : List (List Bytes)).Perm [[lineIncA], [lineIncB]] ∧
    (runFiles [] stHdr [[lineIncB], [lineIncA]]).includelst ≠
      (runFiles [] stHdr [[lineIncA], [lineIncB]]).includelst := by decide

/-- Claim C2 (counterexample): for the path-shaped system include `<a/q.h>` with
source file `x/a/f.c` and empty accumulated sets, the claim's universe (the
directories containing a source file, here `x/a`) suffix-matches `/a` and
would add the root `x`; the code instead searches `systemlst` — empty at
this point — and adds nothing. -/
theorem system_path_universe_mismatch :
    (resolveInclude [toB "x/a/f.c"] ⟨∅, ∅⟩ .system (toB "a/q.h")).systemlst = ∅ ∧
    specSrcDirs [toB "x/a/f.c"] = {toB "x/a"} ∧
    pathRoots (specSrcDirs [toB "x/a/f.c"]) (dirPartOf (toB "a/q.h")) = {toB "x"} := by
  decide

/-- Claim C5 (counterexample): `generate_output` sorts the QUOTED byte strings, and
quoting does not preserve byte order when one path extends another with a
byte below `0x22`: for the paths `x/a.c` and `x/a.c!/b.c` the rendered list
puts `"x/a.c!/b.c"` first although `x/a.c` is the byte-wise smaller path, so
the list is not ordered by byte value of the paths themselves. -/
theorem rendered_order_not_path_order :
    renderSorted [toB "x/a.c", toB "x/a.c!/b.c"] =
      [quoteB (toB "x/a.c!/b.c"), quoteB (toB "x/a.c")] ∧
    bytesLe (toB "x/a.c") (toB "x/a.c!/b.c") = true ∧
    toB "x/a.c" ≠ toB "x/a.c!/b.c" := by decide

/-- Claim C8 (counterexample): the path-shaped resolver has no empty-to-`.`
conversion — it emits computed roots verbatim.  Handing it a universe entry
`/sub` (equal to `/` + dirPart) for the include `"sub/x.h"` makes it compute
and emit the empty root: the empty byte string ends up in the set and `.`
does not. -/
theorem empty_root_emitted_verbatim :
    ([] : Bytes) ∈
      (resolveInclude [] ⟨{toB "/sub"}, ∅⟩ .quoted (toB "sub/x.h")).includelst ∧
    toB "." ∉
      (resolveInclude [] ⟨{toB "/sub"}, ∅⟩ .quoted (toB "sub/x.h")).includelst := by
  decide

/-- Claim C9: a bare quoted include leaves the resolver state untouched, and a
bare system include with no source file ending in `/` + target also leaves
it untouched; `resolveInclude` is total, so neither raises any error. -/
theorem bare_includes_contribute_nothing (srcs : List Bytes) (st : RState)
    (inc : Bytes) (h : '/' ∉ inc) :
    resolveInclude srcs st .quoted inc = st ∧
    ((∀ s ∈ srcs, ('/' :: inc).isSuffixOf s = false) →
      resolveInclude srcs st .system inc = st) := by
  refine ⟨?_, fun hn => ?_⟩
  · show resolveInclude srcs st .quoted inc = st
    unfold resolveInclude
    rw [if_neg h]
  · have hempty : bareSystemRoots srcs inc = ∅ := by
      unfold bareSystemRoots
      have hf : srcs.filter (fun s => ('/' :: inc).isSuffixOf s) = [] := by
        rw [List.filter_eq_nil_iff]
        intro a ha
        rw [hn a ha]
        exact Bool.false_ne_true
      rw [hf]
      rfl
    show resolveInclude srcs st .system inc = st
    unfold resolveInclude
    rw [if_neg h, hempty, Finset.union_empty]

/-- Witness for `bare_includes_contribute_nothing`: the bare system include
`<vector>` against the single source file `x/f.c`. -/
theorem bare_includes_contribute_nothing_w :
    ('/' ∉ toB "vector") ∧
    (resolveInclude [toB "x/f.c"] ⟨{toB "q"}, {toB "r"}⟩ .quoted (toB "vector")
        = ⟨{toB "q"}, {toB "r"}⟩ ∧
      ((∀ s ∈ [toB "x/f.c"], ('/' :: toB "vector").isSuffixOf s = false) →
        resolveInclude [toB "x/f.c"] ⟨{toB "q"}, {toB "r"}⟩ .system (toB "vector")
          = ⟨{toB "q"}, {toB "r"}⟩)) :=
  ⟨by decide,
   bare_includes_contribute_nothing [toB "x/f.c"] ⟨{toB "q"}, {toB "r"}⟩
     (toB "vector") (by decide)⟩

/-- Claim C8 (amended): the resolver emits computed roots verbatim, with no
empty-to-`.` substitution (see the counterexample); but whenever no entry of
the searched universe begins with `/` — true of every universe a walk can
produce, since walk paths are root-relative — the computed roots are never
the empty string, so the empty-root case never arises in a run. -/
theorem computed_root_never_empty (u : Finset Bytes) (dp : Bytes)
    (h : ∀ p ∈ u, p.head? ≠ some '/') :
    ([] : Bytes) ∉ pathRoots u dp := by
  intro hm
  rw [pathRoots, Finset.mem_image] at hm
  obtain ⟨p, hpf, hpt⟩ := hm
  rw [Finset.mem_filter] at hpf
  obtain ⟨hpu, hsuf⟩ := hpf
  have hs : ('/' :: dp) <:+ p := List.isSuffixOf_iff_suffix.mp hsuf
  obtain ⟨t, ht⟩ := hs
  rcases List.take_eq_nil_iff.mp hpt with h0 | hnil
  · have hlen : dp.length + 1 ≤ p.length := by
      have := List.IsSuffix.length_le ⟨t, ht⟩
      simpa using this
    have hlt : t.length + (dp.length + 1) = p.length := by
      have := congrArg List.length ht
      simpa using this
    have ht0 : t = [] := List.length_eq_zero.mp (by omega)
    subst ht0
    rw [List.nil_append] at ht
    exact h p hpu (by rw [← ht]; rfl)
  · subst hnil
    simp at ht

/-- Witness for `computed_root_never_empty`: universe `{x/a}`, dirPart `a`. -/
theorem computed_root_never_empty_w :
    (∀ p ∈ ({toB "x/a"} : Finset Bytes), p.head? ≠ some '/') ∧
    ([] : Bytes) ∉ pathRoots {toB "x/a"} (toB "a") :=
  ⟨by decide, computed_root_never_empty {toB "x/a"} (toB "a") (by decide)⟩

/-- Claim C2 (amended): for a path-shaped include target, the universe the code
searches is the CURRENT `includelst` for a quoted include (seeded with the
walk's header directories and already extended by earlier quoted
resolutions) and the CURRENT `systemlst` for a system include (the system
roots accumulated so far — not the set of directories containing a source
file); each entry ending in `/` + dirPart contributes the entry with that
suffix removed, added back into the same set; the other set is untouched. -/
theorem path_shaped_universe_membership (srcs : List Bytes) (st : RState)
    (inc r : Bytes) (h : '/' ∈ inc) :
    (r ∈ (resolveInclude srcs st .quoted inc).includelst ↔
      r ∈ st.includelst ∨ ∃ p ∈ st.includelst,
        ('/' :: dirPartOf inc).isSuffixOf p = true ∧
        r = p.take (p.length - ((dirPartOf inc).length + 1))) ∧
    (r ∈ (resolveInclude srcs st .system inc).systemlst ↔
      r ∈ st.systemlst ∨ ∃ p ∈ st.systemlst,
        ('/' :: dirPartOf inc).isSuffixOf p = true ∧
        r = p.take (p.length - ((dirPartOf inc).length + 1))) ∧
    (resolveInclude srcs st .quoted inc).systemlst = st.systemlst ∧
    (resolveInclude srcs st .system inc).includelst = st.includelst := by
  have hq : (resolveInclude srcs st .quoted inc).includelst =
      st.includelst ∪ pathRoots st.includelst (dirPartOf inc) := by
    unfold resolveInclude
    rw [if_pos h]
  have hq2 : (resolveInclude srcs st .quoted inc).systemlst = st.systemlst := by
    unfold resolveInclude
    rw [if_pos h]
  have hs : (resolveInclude srcs st .system inc).systemlst =
      st.systemlst ∪ pathRoots st.systemlst (dirPartOf inc) := by
    unfold resolveInclude
    rw [if_pos h]
  have hs2 : (resolveInclude srcs st .system inc).includelst = st.includelst := by
    unfold resolveInclude
    rw [if_pos h]
  refine ⟨?_, ?_, hq2, hs2⟩
  · rw [hq]
    simp only [pathRoots, Finset.mem_union, Finset.mem_image, Finset.mem_filter]
    constructor
    · rintro (hr | ⟨p, ⟨hp, hsuf⟩, hrt⟩)
      · exact Or.inl hr
      · exact Or.inr ⟨p, hp, hsuf, hrt.symm⟩
    · rintro (hr | ⟨p, hp, hsuf, hrt⟩)
      · exact Or.inl hr
      · exact Or.inr ⟨p, ⟨hp, hsuf⟩, hrt.symm⟩
  · rw [hs]
    simp only [pathRoots, Finset.mem_union, Finset.mem_image, Finset.mem_filter]
    constructor
    · rintro (hr | ⟨p, ⟨hp, hsuf⟩, hrt⟩)
      · exact Or.inl hr
      · exact Or.inr ⟨p, hp, hsuf, hrt.symm⟩
    · rintro (hr | ⟨p, hp, hsuf, hrt⟩)
      · exact Or.inl hr
      · exact Or.inr ⟨p, ⟨hp, hsuf⟩, hrt.symm⟩

/-- Witness for `path_shaped_universe_membership`: the quoted include
`"a/q.h"` against a state holding `w/a` and `v/a`. -/
theorem path_shaped_universe_membership_w :
    ('/' ∈ toB "a/q.h") ∧
    ((toB "w" ∈ (resolveInclude [] ⟨{toB "w/a"}, {toB "v/a"}⟩ .quoted
        (toB "a/q.h")).includelst ↔
      toB "w" ∈ ({toB "w/a"} : Finset Bytes) ∨
        ∃ p ∈ ({toB "w/a"} : Finset Bytes),
          ('/' :: dirPartOf (toB "a/q.h")).isSuffixOf p = true ∧
          toB "w" = p.take (p.length - ((dirPartOf (toB "a/q.h")).length + 1))) ∧
    (toB "w" ∈ (resolveInclude [] ⟨{toB "w/a"}, {toB "v/a"}⟩ .system
        (toB "a/q.h")).systemlst ↔
      toB "w" ∈ ({toB "v/a"} : Finset Bytes) ∨
        ∃ p ∈ ({toB "v/a"} : Finset Bytes),
          ('/' :: dirPartOf (toB "a/q.h")).isSuffixOf p = true ∧
          toB "w" = p.take (p.length - ((dirPartOf (toB "a/q.h")).length + 1))) ∧
    (resolveInclude [] ⟨{toB "w/a"}, {toB "v/a"}⟩ .quoted (toB "a/q.h")).systemlst
      = {toB "v/a"} ∧
    (resolveInclude [] ⟨{toB "w/a"}, {toB "v/a"}⟩ .system (toB "a/q.h")).includelst
      = {toB "w/a"}) :=
  ⟨by decide,
   path_shaped_universe_membership [] ⟨{toB "w/a"}, {toB "v/a"}⟩ (toB "a/q.h")
     (toB "w") (by decide)⟩

/-- Claim C1 (amended): the walk's outputs are order-independent — permuting the
filesystem's enumeration of directory entries leaves the sorted rendered
source-file list and the header-directory set unchanged.  (The full claim
fails: the final QuotedRoots/SystemRoots sets are NOT invariant under file
reordering, because the resolver searches the very set it extends — see the
counterexample.) -/
theorem walk_outputs_order_invariant (x : List Bytes) (ce he : List (Option Bytes))
    (e1 e2 : List WalkEntry) (h : e1.Perm e2) :
    renderSorted (walkCollect x ce he e1).1 = renderSorted (walkCollect x ce he e2).1 ∧
    (walkCollect x ce he e1).2 = (walkCollect x ce he e2).2 := by
  unfold walkCollect
  rw [foldl_walkFileStep, foldl_walkFileStep]
  constructor
  · exact renderSorted_perm_eq (by simpa using h.filterMap (walkPick x ce))
  · simpa using List.toFinset_eq_of_perm _ _ (h.filterMap (walkPickHdr x ce he))

/-- Witness for `walk_outputs_order_invariant`: swapping a root-level source
file and a header in a subdirectory. -/
theorem walk_outputs_order_invariant_w :
    ([⟨toB ".", toB "a.c"⟩, ⟨toB "./inc", toB "b.h"⟩] : List WalkEntry).Perm
      [⟨toB "./inc", toB "b.h"⟩, ⟨toB ".", toB "a.c"⟩] ∧
    (renderSorted (walkCollect [] [some (toB "c"), some (toB "h")] [some (toB "h")]
        [⟨toB ".", toB "a.c"⟩, ⟨toB "./inc", toB "b.h"⟩]).1 =
      renderSorted (walkCollect [] [some (toB "c"), some (toB "h")] [some (toB "h")]
        [⟨toB "./inc", toB "b.h"⟩, ⟨toB ".", toB "a.c"⟩]).1 ∧
     (walkCollect [] [some (toB "c"), some (toB "h")] [some (toB "h")]
        [⟨toB ".", toB "a.c"⟩, ⟨toB "./inc", toB "b.h"⟩]).2 =
      (walkCollect [] [some (toB "c"), some (toB "h")] [some (toB "h")]
        [⟨toB "./inc", toB "b.h"⟩, ⟨toB ".", toB "a.c"⟩]).2) :=
  ⟨by decide,
   walk_outputs_order_invariant [] [some (toB "c"), some (toB "h")] [some (toB "h")]
     _ _ (by decide)⟩

/-- Claim C5 (amended): each rendered list is sorted lexicographically by the byte
value of the QUOTED entries (`"` + path + `"`) — which differs from path
byte order when one path is a proper prefix of another whose next byte is
below `0x22`, see the counterexample — and rendering is canonical: two runs
whose walks produce the same multiset of paths render identical lists, so
an unchanged tree yields byte-identical output. -/
theorem rendered_lists_sorted_and_canonical (l1 l2 : List Bytes) (h : l1.Perm l2) :
    List.Sorted BytesLE (renderSorted l1) ∧ renderSorted l1 = renderSorted l2 :=
  ⟨renderSorted_sorted l1, renderSorted_perm_eq h⟩

/-- Witness for `rendered_lists_sorted_and_canonical`: two orders of the
same two paths. -/
theorem rendered_lists_sorted_and_canonical_w :
    ([toB "b.c", toB "a.c"] : List Bytes).Perm [toB "a.c", toB "b.c"] ∧
    (List.Sorted BytesLE (renderSorted [toB "b.c", toB "a.c"]) ∧
     renderSorted [toB "b.c", toB "a.c"] = renderSorted [toB "a.c", toB "b.c"]) :=
  ⟨by decide, rendered_lists_sorted_and_canonical _ _ (by decide)⟩

/-- Modelled from the claim's wording (for comparison with the code's
control flow): a line is accepted with kind `k` and target `t` iff it
contains the substring `include`; the line with all whitespace removed
starts with `#include`; the text after the first `include` occurrence in
the original line, whitespace-stripped, is non-empty and starts with `"`
(quoted) or `<` (system); and the matching closing delimiter occurs in the
remainder, `t` being the text between the delimiters. -/
def specAcceptsInclude (line : Bytes) (k : IncKind) (t : Bytes) : Prop :=
  ∃ i, findSub line needle = some i ∧
    cneedle.isPrefixOf (stripAllWs line) = true ∧
    stripWs (line.drop (i + needle.length)) ≠ [] ∧
    ((k = .quoted ∧ (stripWs (line.drop (i + needle.length))).head? = some '"' ∧
        ∃ pos, findSub (stripWs (line.drop (i + needle.length))).tail ['"'] = some pos ∧
          t = (stripWs (line.drop (i + needle.length))).tail.take pos) ∨
     (k = .system ∧ (stripWs (line.drop (i + needle.length))).head? = some '<' ∧
        ∃ pos, findSub (stripWs (line.drop (i + needle.length))).tail ['>'] = some pos ∧
          t = (stripWs (line.drop (i + needle.length))).tail.take pos))

/-- Claim C6: the extractor accepts a line, yielding kind `k` and target `t`,
exactly under the conditions the claim enumerates (`specAcceptsInclude`);
any line whose first non-whitespace character after the include keyword is
neither `"` nor `<`, or which lacks the closing delimiter, is silently
rejected. -/
theorem extract_include_characterization (line : Bytes) (k : IncKind) (t : Bytes) :
    extractInclude line = some (k, t) ↔ specAcceptsInclude line k t := by
  unfold extractInclude specAcceptsInclude
  cases hf : findSub line needle with
  | none => simp
  | some i =>
    simp only [Option.some.injEq, exists_eq_left']
    by_cases hp : cneedle.isPrefixOf (stripAllWs line) = true
    · rw [if_pos hp]
      simp only [hp, true_and]
      cases hrem : stripWs (line.drop (i + needle.length)) with
      | nil => simp
      | cons c rest =>
        simp only [List.head?_cons, List.tail_cons, Option.some.injEq]
        by_cases hq : c = '"'
        · subst hq
          rw [if_pos rfl]
          cases hpos : findSub rest ['"'] with
          | none => rcases k <;> simp
          | some pos => rcases k <;> simp [Prod.mk.injEq, eq_comm]
        · rw [if_neg hq]
          by_cases hs : c = '<'
          · subst hs
            rw [if_pos rfl]
            cases hpos : findSub rest ['>'] with
            | none => rcases k <;> simp
            | some pos => rcases k <;> simp [Prod.mk.injEq, eq_comm]
          · rw [if_neg hs]
            rcases k <;> simp [hq, hs]
    · rw [if_neg hp]
      simp [hp]

end Cmakerer

